import Mathlib

/-!
Shallow embedding of the grid-search / cross-validation evaluation code of the
vocal-cue-interpreter repository, together with the train/test-split session
reassignment notebook and the hold-one-session-out prediction loop, and proofs
of the specification's claims about them.

Metric values (macro F1, log-loss) are embedded as rationals; the real-valued
hyperparameter grid (swept in log space through `10**np.linspace(np.log10 low,
np.log10 high, count)`) is embedded over the real numbers, idealising IEEE
floating point by exact real arithmetic.
-/

namespace VocalCue

/-- Embedding of `np.linspace(a, b, n)`: for `n = 1` numpy returns the single
start point `[a]`; otherwise the points are `a + (b - a) * i / (n - 1)` for
`i = 0, …, n - 1` (numpy's default `endpoint=True` behaviour). -/
def linspace {α : Type} [LinearOrderedField α] (a b : α) (n : ℕ) : List α :=
  if n = 1 then [a] else
    (List.range n).map (fun i : ℕ => a + (b - a) * (i : α) / ((n - 1 : ℕ) : α))

/-- Embedding of the notebook's own function `range(hps, hp)` (it shadows the
python builtin), applied to the 3-tuple `hps[hp] = (low, high, count)`:
`10**np.linspace(np.log10(low), np.log10(high), count)`. -/
noncomputable def range (spec : ℝ × ℝ × ℕ) : List ℝ :=
  (linspace (Real.logb 10 spec.1) (Real.logb 10 spec.2.1) spec.2.2).map
    (fun x => (10 : ℝ) ^ x)

/-- Embedding of `itertools.product(*lists)` on a list of lists, in itertools
order (the rightmost factor varies fastest). -/
def product {α : Type} : List (List α) → List (List α)
  | [] => [[]]
  | xs :: rest => xs.flatMap (fun x => (product rest).map (fun tl => x :: tl))

/-- The grid built by every gridsearch function of the notebook:
`grid = list(it.product(*[range(hps, hp) for hp in hps.keys()]))`, with the
hyperparameter specification given as the list of its `(low, high, count)`
triples in key order. -/
noncomputable def buildGrid (hps : List (ℝ × ℝ × ℕ)) : List (List ℝ) :=
  product (hps.map range)

/-- Modelled from the spec: `crossvalid_nobar` and `crossvalid_AdamW_nobar`
live in `scripts/utility_functions.py`, which is not among the sources; only
their call sites appear in the gridsearch notebook.  Per the spec, each fold is
trained for the full epoch budget and the validation metric is recorded after
every epoch, and the gridsearch code reads the result as one table per tracked
metric (`output_pt['unweighted_f1']`, `output_pt['logloss']`) with one row per
epoch and the three per-fold validation columns `split_0_val`, `split_1_val`,
`split_2_val` (the call sites fix `k_fold=3`).  The training itself is opaque
machine learning, so a cross-validation run is modelled as an arbitrary
function from grid point to such a pair of tables. -/
structure FoldCurves where
  unweighted_f1 : List (ℚ × ℚ × ℚ)
  logloss : List (ℚ × ℚ × ℚ)
deriving DecidableEq

/-- One row of the `selector` dataframe: columns `best_f1_val`, `f1_val_stop`,
`best_logloss_val`, `logloss_val_stop`. -/
structure SelectorRow where
  best_f1_val : ℚ
  f1_val_stop : ℕ
  best_logloss_val : ℚ
  logloss_val_stop : ℕ
deriving DecidableEq

/-- The initial selector row: all four columns are initialised to `0` by the
`selector[...] = [0]*len(grid)` lines. -/
def initSelectorRow : SelectorRow := ⟨0, 0, 0, 0⟩

/-- The per-epoch series `df['split_0_val'] + df['split_1_val'] + df['split_2_val']`
formed from a metric table. -/
def sumSplits (t : List (ℚ × ℚ × ℚ)) : List ℚ :=
  t.map (fun r => r.1 + r.2.1 + r.2.2)

/-- Embedding of `pandas.Series.max` on the per-epoch series (with a formal
default of `0` on the empty series, which the code never takes). -/
def seriesMax : List ℚ → ℚ
  | [] => 0
  | [x] => x
  | x :: y :: t => max x (seriesMax (y :: t))

/-- Embedding of `pandas.Series.min` on the per-epoch series (with a formal
default of `0` on the empty series, which the code never takes). -/
def seriesMin : List ℚ → ℚ
  | [] => 0
  | [x] => x
  | x :: y :: t => min x (seriesMin (y :: t))

/-- Index of the first occurrence of a value in a list (the length of the list
when the value is absent). -/
def firstIdxOf (x : ℚ) : List ℚ → ℕ
  | [] => 0
  | y :: t => if y = x then 0 else firstIdxOf x t + 1

/-- Embedding of `pandas.Series.argmax`: the integer position of the largest
value; when the maximum is achieved in multiple locations the first row
position is returned. -/
def argmax (l : List ℚ) : ℕ := firstIdxOf (seriesMax l) l

/-- Embedding of `pandas.Series.argmin`: the integer position of the smallest
value; when the minimum is achieved in multiple locations the first row
position is returned. -/
def argmin (l : List ℚ) : ℕ := firstIdxOf (seriesMin l) l

/-- The loop body shared by `twolayergridsearch` and `threelayergridsearch`:
starting from the zero-initialised row, the four `selector.loc[i, …]`
assignments
`best_f1_val = (…f1 splits summed…).max()/3`,
`f1_val_stop = (…f1 splits summed…).argmax()`,
`best_logloss_val = (…logloss splits summed…).min()/3`,
`logloss_val_stop = (…logloss splits summed…).argmin()`. -/
def gridsearchRow (out : FoldCurves) : SelectorRow :=
  let df_f1 := out.unweighted_f1
  let df_logloss := out.logloss
  let r0 := initSelectorRow
  let r1 := { r0 with best_f1_val := seriesMax (sumSplits df_f1) / 3 }
  let r2 := { r1 with f1_val_stop := argmax (sumSplits df_f1) }
  let r3 := { r2 with best_logloss_val := seriesMin (sumSplits df_logloss) / 3 }
  { r3 with logloss_val_stop := argmin (sumSplits df_logloss) }

/-- The loop body shared by `twolayergridsearch_AdamW` and
`threelayergridsearch_AdamW`.  In the source the third and fourth assignments
write to `best_f1_val` and `f1_val_stop` again (not to `best_logloss_val` and
`logloss_val_stop`): the log-loss results overwrite the F1 results and the
log-loss columns keep their initial `0`. -/
def gridsearchRow_AdamW (out : FoldCurves) : SelectorRow :=
  let df_f1 := out.unweighted_f1
  let df_logloss := out.logloss
  let r0 := initSelectorRow
  let r1 := { r0 with best_f1_val := seriesMax (sumSplits df_f1) / 3 }
  let r2 := { r1 with f1_val_stop := argmax (sumSplits df_f1) }
  let r3 := { r2 with best_f1_val := seriesMin (sumSplits df_logloss) / 3 }
  { r3 with f1_val_stop := argmin (sumSplits df_logloss) }

/-- Embedding of `twolayergridsearch(hps)`: one selector row per point of the
Cartesian-product grid.  The construction of the fresh two-layer dropout model
and the call `crossvalid_nobar(model=…, df=…, k_fold=3, lr=…, m=…, wd=…)` are
absorbed into the opaque cross-validation function (see `FoldCurves`). -/
noncomputable def twolayergridsearch (hps : List (ℝ × ℝ × ℕ))
    (crossvalid_nobar : List ℝ → FoldCurves) : List SelectorRow :=
  (buildGrid hps).map (fun pt => gridsearchRow (crossvalid_nobar pt))

/-- Embedding of `threelayergridsearch(hps)`: identical to the two-layer
version except for the opaque model constructor, which is absorbed into the
cross-validation function. -/
noncomputable def threelayergridsearch (hps : List (ℝ × ℝ × ℕ))
    (crossvalid_nobar : List ℝ → FoldCurves) : List SelectorRow :=
  (buildGrid hps).map (fun pt => gridsearchRow (crossvalid_nobar pt))

/-- Embedding of `twolayergridsearch_AdamW(hps)`, whose loop body mis-assigns
the log-loss results (see `gridsearchRow_AdamW`). -/
noncomputable def twolayergridsearch_AdamW (hps : List (ℝ × ℝ × ℕ))
    (crossvalid_AdamW_nobar : List ℝ → FoldCurves) : List SelectorRow :=
  (buildGrid hps).map (fun pt => gridsearchRow_AdamW (crossvalid_AdamW_nobar pt))

/-- Embedding of `threelayergridsearch_AdamW(hps)`, whose loop body mis-assigns
the log-loss results (see `gridsearchRow_AdamW`). -/
noncomputable def threelayergridsearch_AdamW (hps : List (ℝ × ℝ × ℕ))
    (crossvalid_AdamW_nobar : List ℝ → FoldCurves) : List SelectorRow :=
  (buildGrid hps).map (fun pt => gridsearchRow_AdamW (crossvalid_AdamW_nobar pt))

/-- Column `j` of the `predict_proba` output matrix (`pred[:, j]`), failing
like numpy indexing when a row is too short. -/
def column : List (List ℚ) → ℕ → Option (List ℚ)
  | [], _ => some []
  | row :: rest, j =>
    match row.get? j, column rest j with
    | some v, some c => some (v :: c)
    | _, _ => none

/-- Embedding of python's `list.index`: the position of the first occurrence,
an error (`none`) when the value is absent. -/
def indexOf : List ℕ → ℕ → Option ℕ
  | [], _ => none
  | c :: t, n => if c = n then some 0 else (indexOf t n).map (· + 1)

/-- One entry appended to `pred_list` in the hold-one-session-out loop:
`pred[:, est.steps[1][1].classes_.tolist().index(n)] if n in est.steps[1][1].classes_
else np.zeros(mask.sum())`, where `m = mask.sum()` is the number of validation
samples of the fold. -/
def predEntry (classes : List ℕ) (pred : List (List ℚ)) (m : ℕ) (n : ℕ) : Option (List ℚ) :=
  if n ∈ classes then (indexOf classes n).bind (column pred) else some (List.replicate m 0)

/-- The `pred_list` loop of the hold-one-session-out cell:
`for n in range(len(label_list)): pred_list.append(…)`, with the number of
labels passed as the last argument. -/
def predList (classes : List ℕ) (pred : List (List ℚ)) (m : ℕ) : ℕ → Option (List (List ℚ))
  | 0 => some []
  | n + 1 =>
    match predList classes pred m n, predEntry classes pred m n with
    | some acc, some col => some (acc ++ [col])
    | _, _ => none

/-- One row of the train/test csv in the session-reassignment notebook: the
`Filename` column (as its character list), the `is_test` flag, and the
remaining columns (`Label` etc.) abstracted as one payload value. -/
structure CsvRow where
  filename : List Char
  label : ℕ
  is_test : ℕ
deriving DecidableEq

/-- Embedding of `get_session(filename) = filename.split('-')[0][:-3]`:
the characters before the first `'-'`, with the last three of them removed. -/
def get_session (filename : List Char) : List Char :=
  let firstField := filename.takeWhile (fun c => c ≠ '-')
  firstField.take (firstField.length - 3)

/-- The count `session_counts[s]`, where
`session_counts = old_df.loc[old_df.is_test==0].Session.value_counts()` and
`Session = Filename.apply(get_session)`: the number of non-test rows of the
input whose filename-derived session equals `s`. -/
def nonTestSessionCount (df : List CsvRow) (s : List Char) : ℕ :=
  (df.filter (fun r => r.is_test = 0 ∧ get_session r.filename = s)).length

/-- Membership of a session in `session_counts[session_counts < 15].index`:
`value_counts` lists only sessions that occur among the non-test rows, so the
session must occur there at least once and fewer than 15 times. -/
def inSmallSessionIndex (df : List CsvRow) (s : List Char) : Bool :=
  decide (0 < nonTestSessionCount df s ∧ nonTestSessionCount df s < 15)

/-- Embedding of the reassignment cell `new_df = old_df.copy();
new_df.loc[new_df.Session.isin(session_counts[session_counts < 15].index),
'is_test'] = 1`. -/
def reassignSmallSessions (df : List CsvRow) : List CsvRow :=
  df.map (fun r =>
    if inSmallSessionIndex df (get_session r.filename) then { r with is_test := 1 } else r)

/-- Concrete one-row csv fixture used to exercise the session-reassignment
claim on a closed input: the filename-derived session `['a','b','1']` has one
non-test row, fewer than 15. -/
def sampleCsvRow : CsvRow := CsvRow.mk ['a', 'b', '1', '0', '0', '1', '-', 'x'] 3 0

/-- Specification-side definition for claim C5 (from the spec's words, to be
compared with the source's computation): the per-epoch average across the
three folds of the per-epoch validation metric. -/
def foldMeanCurve (t : List (ℚ × ℚ × ℚ)) : List ℚ :=
  t.map (fun r => (r.1 + r.2.1 + r.2.2) / 3)

theorem seriesMax_mem : ∀ (l : List ℚ), l ≠ [] → seriesMax l ∈ l
  | [x], _ => by simp [seriesMax]
  | x :: y :: t, _ => by
    have ih := seriesMax_mem (y :: t) (by simp)
    rcases le_total x (seriesMax (y :: t)) with h | h
    · have : seriesMax (x :: y :: t) = seriesMax (y :: t) := by
        simp [seriesMax, max_eq_right h]
      rw [this]
      exact List.mem_cons_of_mem _ ih
    · have : seriesMax (x :: y :: t) = x := by simp [seriesMax, max_eq_left h]
      rw [this]
      exact List.mem_cons_self _ _

theorem seriesMin_mem : ∀ (l : List ℚ), l ≠ [] → seriesMin l ∈ l
  | [x], _ => by simp [seriesMin]
  | x :: y :: t, _ => by
    have ih := seriesMin_mem (y :: t) (by simp)
    rcases le_total (seriesMin (y :: t)) x with h | h
    · have : seriesMin (x :: y :: t) = seriesMin (y :: t) := by
        simp [seriesMin, min_eq_right h]
      rw [this]
      exact List.mem_cons_of_mem _ ih
    · have : seriesMin (x :: y :: t) = x := by simp [seriesMin, min_eq_left h]
      rw [this]
      exact List.mem_cons_self _ _

theorem firstIdxOf_lt_length {x : ℚ} : ∀ {l : List ℚ}, x ∈ l → firstIdxOf x l < l.length
  | y :: t, hm => by
    by_cases h : y = x
    · simp [firstIdxOf, h]
    · have hx : x ∈ t := by
        rcases List.mem_cons.mp hm with h1 | h1
        · exact absurd h1.symm h
        · exact h1
      have := firstIdxOf_lt_length hx
      simpa [firstIdxOf, h] using this

theorem get?_firstIdxOf {x : ℚ} : ∀ {l : List ℚ}, x ∈ l → l.get? (firstIdxOf x l) = some x
  | y :: t, hm => by
    by_cases h : y = x
    · simp [firstIdxOf, h]
    · have hx : x ∈ t := by
        rcases List.mem_cons.mp hm with h1 | h1
        · exact absurd h1.symm h
        · exact h1
      have := get?_firstIdxOf hx
      simpa [firstIdxOf, h] using this

theorem firstIdxOf_earlier {x : ℚ} :
    ∀ (l : List ℚ) (j : ℕ), j < firstIdxOf x l → l.get? j ≠ some x
  | [], j, hj => by simp [firstIdxOf] at hj
  | y :: t, 0, hj => by
    by_cases h : y = x
    · simp [firstIdxOf, h] at hj
    · simpa using fun e => h e
  | y :: t, j + 1, hj => by
    by_cases h : y = x
    · simp [firstIdxOf, h] at hj
    · have hj' : j < firstIdxOf x t := by
        have : j + 1 < firstIdxOf x t + 1 := by simpa [firstIdxOf, h] using hj
        omega
      simpa using firstIdxOf_earlier t j hj'

theorem argmax_lt_length {l : List ℚ} (h : l ≠ []) : argmax l < l.length :=
  firstIdxOf_lt_length (seriesMax_mem l h)

theorem argmin_lt_length {l : List ℚ} (h : l ≠ []) : argmin l < l.length :=
  firstIdxOf_lt_length (seriesMin_mem l h)

theorem length_sumSplits (t : List (ℚ × ℚ × ℚ)) : (sumSplits t).length = t.length :=
  List.length_map _ _

theorem max_div_three (a b : ℚ) : max a b / 3 = max (a / 3) (b / 3) := by
  rcases le_total a b with h | h
  · rw [max_eq_right h, max_eq_right (by linarith : a / 3 ≤ b / 3)]
  · rw [max_eq_left h, max_eq_left (by linarith : b / 3 ≤ a / 3)]

theorem min_div_three (a b : ℚ) : min a b / 3 = min (a / 3) (b / 3) := by
  rcases le_total a b with h | h
  · rw [min_eq_left h, min_eq_left (by linarith : a / 3 ≤ b / 3)]
  · rw [min_eq_right h, min_eq_right (by linarith : b / 3 ≤ a / 3)]

theorem seriesMax_map_div_three :
    ∀ (l : List ℚ), seriesMax (l.map (fun x => x / 3)) = seriesMax l / 3
  | [] => by simp [seriesMax]
  | [x] => by simp [seriesMax]
  | x :: y :: t => by
    have ih := seriesMax_map_div_three (y :: t)
    simp only [List.map_cons] at ih ⊢
    rw [show seriesMax (x / 3 :: y / 3 :: List.map (fun x => x / 3) t)
        = max (x / 3) (seriesMax (y / 3 :: List.map (fun x => x / 3) t)) from rfl,
      ih, show seriesMax (x :: y :: t) = max x (seriesMax (y :: t)) from rfl,
      max_div_three]

theorem seriesMin_map_div_three :
    ∀ (l : List ℚ), seriesMin (l.map (fun x => x / 3)) = seriesMin l / 3
  | [] => by simp [seriesMin]
  | [x] => by simp [seriesMin]
  | x :: y :: t => by
    have ih := seriesMin_map_div_three (y :: t)
    simp only [List.map_cons] at ih ⊢
    rw [show seriesMin (x / 3 :: y / 3 :: List.map (fun x => x / 3) t)
        = min (x / 3) (seriesMin (y / 3 :: List.map (fun x => x / 3) t)) from rfl,
      ih, show seriesMin (x :: y :: t) = min x (seriesMin (y :: t)) from rfl,
      min_div_three]

theorem length_linspace {α : Type} [LinearOrderedField α] (a b : α) (n : ℕ) :
    (linspace a b n).length = n := by
  unfold linspace
  split <;> simp_all

theorem sum_map_const {α : Type} (xs : List α) (c : ℕ) :
    (xs.map (fun _ => c)).sum = xs.length * c := by
  induction xs with
  | nil => simp
  | cons y ys ih => simp [ih, Nat.succ_mul, Nat.add_comm]

theorem length_product {α : Type} :
    ∀ L : List (List α), (product L).length = (L.map List.length).prod
  | [] => rfl
  | xs :: rest => by
    have ih := length_product rest
    simp only [product, List.length_flatMap, List.map_map, Function.comp_def,
      List.length_map, List.map_cons, List.prod_cons]
    rw [sum_map_const, ih]

theorem length_range (t : ℝ × ℝ × ℕ) : (range t).length = t.2.2 := by
  simp [range, length_linspace]

theorem length_buildGrid (hps : List (ℝ × ℝ × ℕ)) :
    (buildGrid hps).length = (hps.map (fun t => t.2.2)).prod := by
  rw [buildGrid, length_product, List.map_map]
  exact congrArg List.prod (List.map_congr_left (fun t _ => length_range t))

theorem linspace_count_one {α : Type} [LinearOrderedField α] (a b : α) :
    linspace a b 1 = [a] := by
  simp [linspace]

theorem range_count_one (low high : ℝ) (h : 0 < low) : range (low, high, 1) = [low] := by
  simp only [range, linspace_count_one, List.map_cons, List.map_nil]
  rw [Real.rpow_logb (by norm_num) (by norm_num) h]

theorem buildGrid_count_one (low high : ℝ) (h : 0 < low) :
    buildGrid [(low, high, 1)] = [[low]] := by
  simp [buildGrid, product, range_count_one low high h]

theorem chain'_le_linspace {α : Type} [LinearOrderedField α] (a b : α) (n : ℕ) (hab : a ≤ b) :
    List.Chain' (· ≤ ·) (linspace a b n) := by
  unfold linspace
  split
  · simp
  · rw [List.chain'_map]
    cases n with
    | zero => simp
    | succ k =>
      rw [List.chain'_range_succ]
      intro m hm
      have h1 : (0 : α) ≤ b - a := sub_nonneg.mpr hab
      have h2 : (0 : α) < ((k + 1 - 1 : ℕ) : α) := by
        have : 1 ≤ k := by omega
        simp only [Nat.add_sub_cancel]
        exact_mod_cast this
      gcongr
      exact_mod_cast Nat.le_succ m

theorem head?_linspace {α : Type} [LinearOrderedField α] (a b : α) (n : ℕ) (h : 0 < n) :
    (linspace a b n).head? = some a := by
  unfold linspace
  split
  · rfl
  · cases n with
    | zero => omega
    | succ k =>
      rw [List.range_succ_eq_map, List.map_cons]
      simp

theorem getLast?_linspace {α : Type} [LinearOrderedField α] (a b : α) (n : ℕ) (h : 2 ≤ n) :
    (linspace a b n).getLast? = some b := by
  unfold linspace
  rw [if_neg (by omega)]
  cases n with
  | zero => omega
  | succ k =>
    rw [List.range_succ, List.map_append, List.map_cons, List.map_nil, List.getLast?_concat]
    have hk : ((k + 1 - 1 : ℕ) : α) = (k : α) := by simp
    have hk' : (k : α) ≠ 0 := by exact_mod_cast (by omega : k ≠ 0)
    rw [hk, mul_div_assoc, div_self hk', mul_one]
    congr 1
    ring

theorem chain'_le_range (low high : ℝ) (count : ℕ) (hlow : 0 < low) (hle : low ≤ high) :
    List.Chain' (· ≤ ·) (range (low, high, count)) := by
  rw [range, List.chain'_map]
  have h := chain'_le_linspace (Real.logb 10 low) (Real.logb 10 high) count
    (Real.logb_le_logb_of_le (by norm_num) hlow hle)
  exact h.imp (fun a b hab => Real.rpow_le_rpow_of_exponent_le (by norm_num) hab)

theorem head?_range (low high : ℝ) (count : ℕ) (hlow : 0 < low) (hc : 0 < count) :
    (range (low, high, count)).head? = some low := by
  rw [range, List.head?_map, head?_linspace _ _ _ hc, Option.map_some']
  rw [Real.rpow_logb (by norm_num) (by norm_num) hlow]

theorem getLast?_range (low high : ℝ) (count : ℕ) (hhigh : 0 < high) (hc : 2 ≤ count) :
    (range (low, high, count)).getLast? = some high := by
  rw [range, List.getLast?_map, getLast?_linspace _ _ _ hc, Option.map_some']
  rw [Real.rpow_logb (by norm_num) (by norm_num) hhigh]

theorem indexOf_lt_length : ∀ {classes : List ℕ} {n j : ℕ},
    indexOf classes n = some j → j < classes.length
  | [], _, _ => by intro hj; simp [indexOf] at hj
  | c :: t, n, j => by
    by_cases h : c = n
    · simp only [indexOf, if_pos h, Option.some_inj]
      intro hj
      simp [← hj]
    · intro hj
      simp only [indexOf, if_neg h, Option.map_eq_some'] at hj
      obtain ⟨j', hj', rfl⟩ := hj
      have := indexOf_lt_length hj'
      simp only [List.length_cons]
      omega

theorem indexOf_eq_some_of_mem : ∀ {classes : List ℕ} {n : ℕ},
    n ∈ classes → ∃ j, indexOf classes n = some j
  | [], _, hm => absurd hm (List.not_mem_nil _)
  | c :: t, n, hm => by
    by_cases h : c = n
    · exact ⟨0, by simp [indexOf, h]⟩
    · have hx : n ∈ t := by
        rcases List.mem_cons.mp hm with h1 | h1
        · exact absurd h1.symm h
        · exact h1
      obtain ⟨j, hj⟩ := indexOf_eq_some_of_mem hx
      exact ⟨j + 1, by simp [indexOf, h, hj]⟩

theorem column_eq_some :
    ∀ (pred : List (List ℚ)) (j : ℕ), (∀ row ∈ pred, j < row.length) →
      ∃ c, column pred j = some c ∧ c.length = pred.length
  | [], _, _ => ⟨[], rfl, rfl⟩
  | row :: rest, j, h => by
    obtain ⟨c, hc, hlen⟩ := column_eq_some rest j (fun r hr => h r (List.mem_cons_of_mem _ hr))
    have hj : j < row.length := h row (List.mem_cons_self _ _)
    refine ⟨row.get ⟨j, hj⟩ :: c, ?_, by simp [hlen]⟩
    simp [column, List.getElem?_eq_getElem hj, hc, List.get_eq_getElem]

theorem mem_pos_nonTestSessionCount {df : List CsvRow} {r : CsvRow}
    (hr : r ∈ df) (ht : r.is_test = 0) :
    0 < nonTestSessionCount df (get_session r.filename) := by
  have : r ∈ df.filter (fun q => q.is_test = 0 ∧ get_session q.filename = get_session r.filename) := by
    refine List.mem_filter.mpr ⟨hr, ?_⟩
    simp [ht]
  rw [nonTestSessionCount]
  exact List.length_pos.mpr (List.ne_nil_of_mem this)

theorem gridsearchRow_stops_lt {out : FoldCurves} {budget : ℕ} (hb : 0 < budget)
    (h1 : out.unweighted_f1.length = budget) (h2 : out.logloss.length = budget) :
    (gridsearchRow out).f1_val_stop < budget ∧ (gridsearchRow out).logloss_val_stop < budget := by
  have hne1 : sumSplits out.unweighted_f1 ≠ [] :=
    List.length_pos.mp (by rw [length_sumSplits, h1]; exact hb)
  have hne2 : sumSplits out.logloss ≠ [] :=
    List.length_pos.mp (by rw [length_sumSplits, h2]; exact hb)
  constructor
  · have := argmax_lt_length hne1
    rw [length_sumSplits, h1] at this
    exact this
  · have := argmin_lt_length hne2
    rw [length_sumSplits, h2] at this
    exact this

/-- Claim C3: for every hyperparameter specification (one `(low, high, count)`
triple per dimension, listed in key order), the grid built as the Cartesian
product of the per-dimension log-spaced ranges has size equal to the product
of the per-dimension counts. -/
theorem grid_size_eq_prod_counts_C3 (hps : List (ℝ × ℝ × ℕ)) :
    (buildGrid hps).length = (hps.map (fun t => t.2.2)).prod :=
  length_buildGrid hps

/-- Claim C4 counterexample: the dimension specification `(10, 1, 2)` has
nonzero positive bounds, yet the log-spaced sequence it generates is the
strictly decreasing `[10, 1]`, so the sequence is not monotonically
increasing (the claim as stated also fails for `count = 1` with
`low ≠ high`, where the last element equals `low`, not `high`). -/
theorem log_range_not_monotone_C4_counterexample :
    (0 : ℝ) < 10 ∧ (0 : ℝ) < 1 ∧ ¬ List.Chain' (· ≤ ·) (range (10, 1, 2)) := by
  refine ⟨by norm_num, by norm_num, ?_⟩
  have e1 : Real.logb 10 10 = 1 := Real.logb_self_eq_one (by norm_num)
  have h : range (10, 1, 2) = [10, 1] := by
    have hr : List.range 2 = [0, 1] := rfl
    simp only [range, linspace, e1, Real.logb_one, hr]
    norm_num [Real.rpow_one, Real.rpow_zero]
  rw [h]
  simp only [List.chain'_cons, List.chain'_singleton, and_true]
  norm_num

/-- Claim C4 (amended): for every dimension specification `(low, high, count)`
with positive bounds and `low ≤ high`, the log-spaced sequence
`10^linspace(log10 low, log10 high, count)` is monotonically nondecreasing and
(when nonempty) starts at `low`; when `count ≥ 2` its last element equals
`high` (idealising floating point by exact real arithmetic; for `count = 1`
the sequence is the single point `[low]` regardless of `high`, see claim
C9). -/
theorem log_range_monotone_endpoints_C4 (low high : ℝ) (count : ℕ)
    (hlow : 0 < low) (hle : low ≤ high) :
    List.Chain' (· ≤ ·) (range (low, high, count)) ∧
    (0 < count → (range (low, high, count)).head? = some low) ∧
    (2 ≤ count → (range (low, high, count)).getLast? = some high) :=
  ⟨chain'_le_range low high count hlow hle,
   fun hc => head?_range low high count hlow hc,
   fun hc => getLast?_range low high count (lt_of_lt_of_le hlow hle) hc⟩

theorem log_range_monotone_endpoints_C4_witness :
    ((0 : ℝ) < 1 ∧ (1 : ℝ) ≤ 100) ∧
    (List.Chain' (· ≤ ·) (range (1, 100, 3)) ∧
     (0 < 3 → (range (1, 100, 3)).head? = some 1) ∧
     (2 ≤ 3 → (range (1, 100, 3)).getLast? = some 100)) :=
  ⟨⟨by norm_num, by norm_num⟩,
   log_range_monotone_endpoints_C4 1 100 3 (by norm_num) (by norm_num)⟩

/-- Claim C9: for every dimension specification with `count = 1` and a
positive low bound, the log-spaced range generator returns the single value
`low`; the high bound has no effect on the output (for instance the momentum
specification `m = (9e-1, 10e-1, 1)` yields only `0.9`, never `1.0`). -/
theorem range_single_point_C9 (low high : ℝ) (h : 0 < low) :
    range (low, high, 1) = [low] :=
  range_count_one low high h

theorem range_single_point_C9_witness :
    (0 : ℝ) < 9 / 10 ∧ range (9 / 10, 1, 1) = [9 / 10] ∧ (9 / 10 : ℝ) ≠ 1 :=
  ⟨by norm_num, range_single_point_C9 (9 / 10) 1 (by norm_num), by norm_num⟩

/-- Claim C5: for every grid point, the recorded `best_f1_val` equals the
maximum over epochs of the across-fold average (`k = 3` folds) of the
per-epoch validation F1, and the recorded `best_logloss_val` equals the
minimum over epochs of the across-fold average of the per-epoch validation
log-loss. -/
theorem best_values_are_fold_mean_optima_C5 (out : FoldCurves) :
    (gridsearchRow out).best_f1_val = seriesMax (foldMeanCurve out.unweighted_f1) ∧
    (gridsearchRow out).best_logloss_val = seriesMin (foldMeanCurve out.logloss) := by
  have h1 : foldMeanCurve out.unweighted_f1
      = (sumSplits out.unweighted_f1).map (fun x => x / 3) := by
    simp only [foldMeanCurve, sumSplits, List.map_map]
    rfl
  have h2 : foldMeanCurve out.logloss
      = (sumSplits out.logloss).map (fun x => x / 3) := by
    simp only [foldMeanCurve, sumSplits, List.map_map]
    rfl
  constructor
  · rw [h1, seriesMax_map_div_three]
    rfl
  · rw [h2, seriesMin_map_div_three]
    rfl

/-- Claim C6: in the table returned by `twolayergridsearch`, every row's
recorded stopping epochs `f1_val_stop` and `logloss_val_stop` lie in the valid
epoch range `[0, budget − 1]`, where `budget` is the (positive) fixed number
of training epochs of each fold, i.e. the length of every per-epoch metric
curve produced by the cross-validation. -/
theorem stop_epochs_within_budget_C6 (hps : List (ℝ × ℝ × ℕ))
    (crossvalid_nobar : List ℝ → FoldCurves) (budget : ℕ) (hb : 0 < budget)
    (h : ∀ pt, (crossvalid_nobar pt).unweighted_f1.length = budget ∧
               (crossvalid_nobar pt).logloss.length = budget) :
    ∀ row ∈ twolayergridsearch hps crossvalid_nobar,
      row.f1_val_stop < budget ∧ row.logloss_val_stop < budget := by
  intro row hrow
  rw [twolayergridsearch] at hrow
  obtain ⟨pt, _, rfl⟩ := List.mem_map.mp hrow
  exact gridsearchRow_stops_lt hb (h pt).1 (h pt).2

theorem stop_epochs_within_budget_C6_witness :
    0 < 1 ∧
    (∀ pt : List ℝ,
      ((fun _ : List ℝ => FoldCurves.mk [(1, 1, 1)] [(2, 2, 2)]) pt).unweighted_f1.length = 1 ∧
      ((fun _ : List ℝ => FoldCurves.mk [(1, 1, 1)] [(2, 2, 2)]) pt).logloss.length = 1) ∧
    ∀ row ∈ twolayergridsearch [(1, 1, 1)]
        (fun _ : List ℝ => FoldCurves.mk [(1, 1, 1)] [(2, 2, 2)]),
      row.f1_val_stop < 1 ∧ row.logloss_val_stop < 1 :=
  ⟨Nat.one_pos, fun _ => ⟨rfl, rfl⟩,
   stop_epochs_within_budget_C6 [(1, 1, 1)] _ 1 Nat.one_pos (fun _ => ⟨rfl, rfl⟩)⟩

/-- Claim C2: called on the specification with the two dimensions
`dr = (0.1, 0.5, 3)` and `lr = (1e-4, 1e-3, 2)`, with the hard-coded three
folds and a 5-epoch training budget (every fold curve has 5 epochs),
`twolayergridsearch` returns a table with exactly `6` rows, and each row's
best-metric epochs lie in `[0, 4]`. -/
theorem twolayergridsearch_six_rows_C2 (crossvalid_nobar : List ℝ → FoldCurves)
    (h : ∀ pt, (crossvalid_nobar pt).unweighted_f1.length = 5 ∧
               (crossvalid_nobar pt).logloss.length = 5) :
    (twolayergridsearch [((1 : ℝ) / 10, 5 / 10, 3), (1 / 10000, 1 / 1000, 2)]
        crossvalid_nobar).length = 6 ∧
    ∀ row ∈ twolayergridsearch [((1 : ℝ) / 10, 5 / 10, 3), (1 / 10000, 1 / 1000, 2)]
        crossvalid_nobar,
      row.f1_val_stop < 5 ∧ row.logloss_val_stop < 5 := by
  constructor
  · rw [twolayergridsearch, List.length_map, length_buildGrid]
    rfl
  · intro row hrow
    rw [twolayergridsearch] at hrow
    obtain ⟨pt, _, rfl⟩ := List.mem_map.mp hrow
    exact gridsearchRow_stops_lt (by norm_num) (h pt).1 (h pt).2

theorem twolayergridsearch_six_rows_C2_witness :
    (∀ pt : List ℝ,
      ((fun _ : List ℝ => FoldCurves.mk (List.replicate 5 (0, 0, 0))
          (List.replicate 5 (0, 0, 0))) pt).unweighted_f1.length = 5 ∧
      ((fun _ : List ℝ => FoldCurves.mk (List.replicate 5 (0, 0, 0))
          (List.replicate 5 (0, 0, 0))) pt).logloss.length = 5) ∧
    ((twolayergridsearch [((1 : ℝ) / 10, 5 / 10, 3), (1 / 10000, 1 / 1000, 2)]
        (fun _ : List ℝ => FoldCurves.mk (List.replicate 5 (0, 0, 0))
          (List.replicate 5 (0, 0, 0)))).length = 6 ∧
     ∀ row ∈ twolayergridsearch [((1 : ℝ) / 10, 5 / 10, 3), (1 / 10000, 1 / 1000, 2)]
        (fun _ : List ℝ => FoldCurves.mk (List.replicate 5 (0, 0, 0))
          (List.replicate 5 (0, 0, 0))),
       row.f1_val_stop < 5 ∧ row.logloss_val_stop < 5) :=
  ⟨fun _ => ⟨rfl, rfl⟩, twolayergridsearch_six_rows_C2 _ (fun _ => ⟨rfl, rfl⟩)⟩

/-- Claim C7: for every grid point, the recorded stopping epoch is the first
epoch attaining the best aggregated value of that point's curve: the
aggregated F1 curve attains its maximum at `f1_val_stop` and at no earlier
epoch, and the aggregated log-loss curve attains its minimum at
`logloss_val_stop` and at no earlier epoch. -/
theorem stop_epoch_first_occurrence_C7 (out : FoldCurves)
    (h1 : out.unweighted_f1 ≠ []) (h2 : out.logloss ≠ []) :
    ((sumSplits out.unweighted_f1).get? (gridsearchRow out).f1_val_stop
        = some (seriesMax (sumSplits out.unweighted_f1)) ∧
      ∀ j < (gridsearchRow out).f1_val_stop,
        (sumSplits out.unweighted_f1).get? j
          ≠ some (seriesMax (sumSplits out.unweighted_f1))) ∧
    ((sumSplits out.logloss).get? (gridsearchRow out).logloss_val_stop
        = some (seriesMin (sumSplits out.logloss)) ∧
      ∀ j < (gridsearchRow out).logloss_val_stop,
        (sumSplits out.logloss).get? j
          ≠ some (seriesMin (sumSplits out.logloss))) := by
  have hne1 : sumSplits out.unweighted_f1 ≠ [] := by
    intro e
    exact h1 (List.map_eq_nil.mp e)
  have hne2 : sumSplits out.logloss ≠ [] := by
    intro e
    exact h2 (List.map_eq_nil.mp e)
  exact ⟨⟨get?_firstIdxOf (seriesMax_mem _ hne1),
          fun j hj => firstIdxOf_earlier _ j hj⟩,
         ⟨get?_firstIdxOf (seriesMin_mem _ hne2),
          fun j hj => firstIdxOf_earlier _ j hj⟩⟩

theorem stop_epoch_first_occurrence_C7_witness :
    (FoldCurves.mk [(1, 1, 1), (1, 1, 1)] [(2, 2, 2)]).unweighted_f1 ≠ [] ∧
    (FoldCurves.mk [(1, 1, 1), (1, 1, 1)] [(2, 2, 2)]).logloss ≠ [] ∧
    (((sumSplits (FoldCurves.mk [(1, 1, 1), (1, 1, 1)] [(2, 2, 2)]).unweighted_f1).get?
          (gridsearchRow (FoldCurves.mk [(1, 1, 1), (1, 1, 1)] [(2, 2, 2)])).f1_val_stop
        = some (seriesMax (sumSplits
            (FoldCurves.mk [(1, 1, 1), (1, 1, 1)] [(2, 2, 2)]).unweighted_f1)) ∧
      ∀ j < (gridsearchRow (FoldCurves.mk [(1, 1, 1), (1, 1, 1)] [(2, 2, 2)])).f1_val_stop,
        (sumSplits (FoldCurves.mk [(1, 1, 1), (1, 1, 1)] [(2, 2, 2)]).unweighted_f1).get? j
          ≠ some (seriesMax (sumSplits
              (FoldCurves.mk [(1, 1, 1), (1, 1, 1)] [(2, 2, 2)]).unweighted_f1))) ∧
     ((sumSplits (FoldCurves.mk [(1, 1, 1), (1, 1, 1)] [(2, 2, 2)]).logloss).get?
          (gridsearchRow (FoldCurves.mk [(1, 1, 1), (1, 1, 1)] [(2, 2, 2)])).logloss_val_stop
        = some (seriesMin (sumSplits
            (FoldCurves.mk [(1, 1, 1), (1, 1, 1)] [(2, 2, 2)]).logloss)) ∧
      ∀ j < (gridsearchRow
          (FoldCurves.mk [(1, 1, 1), (1, 1, 1)] [(2, 2, 2)])).logloss_val_stop,
        (sumSplits (FoldCurves.mk [(1, 1, 1), (1, 1, 1)] [(2, 2, 2)]).logloss).get? j
          ≠ some (seriesMin (sumSplits
              (FoldCurves.mk [(1, 1, 1), (1, 1, 1)] [(2, 2, 2)]).logloss)))) :=
  ⟨by simp, by simp,
   stop_epoch_first_occurrence_C7 (FoldCurves.mk [(1, 1, 1), (1, 1, 1)] [(2, 2, 2)])
     (by simp) (by simp)⟩

/-- Claim C1 (code-bug evidence): on a one-point grid whose cross-validation
returns the per-epoch F1 fold values `(1, 1, 1)` (fold sum `3`) and log-loss
fold values `(2, 2, 2)` (fold sum `6`), the two non-AdamW searches fill the
columns as the claim states (`best_f1_val = 1`, `best_logloss_val = 2`, both
stops `0`), but the two AdamW searches write the log-loss minimum `2` into
`best_f1_val`, its argmin into `f1_val_stop`, and leave `best_logloss_val`
and `logloss_val_stop` at their initial `0`. -/
theorem gridsearch_selector_columns_C1 :
    twolayergridsearch [(1, 1, 1)] (fun _ => FoldCurves.mk [(1, 1, 1)] [(2, 2, 2)])
      = [SelectorRow.mk 1 0 2 0] ∧
    threelayergridsearch [(1, 1, 1)] (fun _ => FoldCurves.mk [(1, 1, 1)] [(2, 2, 2)])
      = [SelectorRow.mk 1 0 2 0] ∧
    twolayergridsearch_AdamW [(1, 1, 1)] (fun _ => FoldCurves.mk [(1, 1, 1)] [(2, 2, 2)])
      = [SelectorRow.mk 2 0 0 0] ∧
    threelayergridsearch_AdamW [(1, 1, 1)] (fun _ => FoldCurves.mk [(1, 1, 1)] [(2, 2, 2)])
      = [SelectorRow.mk 2 0 0 0] := by
  have hg : buildGrid [((1 : ℝ), 1, 1)] = [[1]] := buildGrid_count_one 1 1 (by norm_num)
  refine ⟨?_, ?_, ?_, ?_⟩ <;>
    simp only [twolayergridsearch, threelayergridsearch, twolayergridsearch_AdamW,
      threelayergridsearch_AdamW, hg, List.map_cons, List.map_nil] <;>
    norm_num [gridsearchRow, gridsearchRow_AdamW, initSelectorRow, sumSplits,
      seriesMax, seriesMin, argmax, argmin, firstIdxOf]

theorem mem_of_indexOf_eq_some : ∀ {classes : List ℕ} {n j : ℕ},
    indexOf classes n = some j → n ∈ classes
  | [], _, _ => by intro h; simp [indexOf] at h
  | c :: t, n, j => by
    by_cases h : c = n
    · intro _
      exact List.mem_cons.mpr (Or.inl h.symm)
    · intro hj
      simp only [indexOf, if_neg h, Option.map_eq_some'] at hj
      obtain ⟨j', hj', _⟩ := hj
      exact List.mem_cons_of_mem _ (mem_of_indexOf_eq_some hj')

theorem predList_spec (classes : List ℕ) (pred : List (List ℚ)) (m : ℕ)
    (hrow : ∀ row ∈ pred, row.length = classes.length) :
    ∀ L : ℕ, ∃ cols, predList classes pred m L = some cols ∧ cols.length = L ∧
      (∀ n, n < L → n ∉ classes → cols.get? n = some (List.replicate m 0)) ∧
      (∀ n j, n < L → indexOf classes n = some j → cols.get? n = column pred j)
  | 0 => ⟨[], rfl, rfl, fun n hn _ => absurd hn (Nat.not_lt_zero n),
          fun n _ hn _ => absurd hn (Nat.not_lt_zero n)⟩
  | L + 1 => by
    obtain ⟨cols, hc, hlen, hz, hp⟩ := predList_spec classes pred m hrow L
    have hentry : ∃ col, predEntry classes pred m L = some col ∧
        (L ∉ classes → col = List.replicate m 0) ∧
        (∀ j, indexOf classes L = some j → some col = column pred j) := by
      by_cases hL : L ∈ classes
      · obtain ⟨j, hj⟩ := indexOf_eq_some_of_mem hL
        have hjlen : j < classes.length := indexOf_lt_length hj
        obtain ⟨c, hcol, _⟩ := column_eq_some pred j
          (fun row hr => by rw [hrow row hr]; exact hjlen)
        refine ⟨c, ?_, fun hn => absurd hL hn, fun j' hj' => ?_⟩
        · rw [predEntry, if_pos hL, hj]
          simpa using hcol
        · rw [hj] at hj'
          obtain rfl := Option.some_inj.mp hj'
          rw [hcol]
      · refine ⟨List.replicate m 0, ?_, fun _ => rfl, fun j' hj' => ?_⟩
        · rw [predEntry, if_neg hL]
        · exact absurd (mem_of_indexOf_eq_some hj') hL
    obtain ⟨col, hcole, hmiss, hpres⟩ := hentry
    refine ⟨cols ++ [col], ?_, by simp [hlen], ?_, ?_⟩
    · simp only [predList, hc, hcole]
    · intro n hn hnc
      rcases Nat.lt_succ_iff_lt_or_eq.mp hn with h | rfl
      · rw [List.get?_append (by rw [hlen]; exact h)]
        exact hz n h hnc
      · rw [← hlen, List.get?_concat_length]
        rw [hmiss hnc]
    · intro n j hn hj
      rcases Nat.lt_succ_iff_lt_or_eq.mp hn with h | rfl
      · rw [List.get?_append (by rw [hlen]; exact h)]
        exact hp n j h hj
      · rw [← hlen, List.get?_concat_length]
        exact hpres j hj

/-- Claim C8: during hold-one-session-out validation, the `pred_list`
construction never fails when `predict_proba` returns one probability per
fitted class for every validation sample: for every label index below the
label-list length, a label absent from the fitted classes gets the
all-zero probability column (probability exactly zero for every validation
sample of the fold), and a present label's column is the `predict_proba`
column at that label's index among the fitted classes. -/
theorem missing_class_zero_probability_C8 (classes : List ℕ) (pred : List (List ℚ))
    (m L : ℕ) (hrow : ∀ row ∈ pred, row.length = classes.length) :
    ∃ cols, predList classes pred m L = some cols ∧ cols.length = L ∧
      (∀ n, n < L → n ∉ classes → cols.get? n = some (List.replicate m 0)) ∧
      (∀ n j, n < L → indexOf classes n = some j → cols.get? n = column pred j) :=
  predList_spec classes pred m hrow L

theorem missing_class_zero_probability_C8_witness :
    (∀ row ∈ [[(1 : ℚ) / 2, 1 / 2]], row.length = ([0, 2] : List ℕ).length) ∧
    (∃ cols, predList [0, 2] [[(1 : ℚ) / 2, 1 / 2]] 1 3 = some cols ∧ cols.length = 3 ∧
      (∀ n, n < 3 → n ∉ ([0, 2] : List ℕ) → cols.get? n = some (List.replicate 1 0)) ∧
      (∀ n j, n < 3 → indexOf [0, 2] n = some j →
        cols.get? n = column [[(1 : ℚ) / 2, 1 / 2]] j)) :=
  ⟨by simp, missing_class_zero_probability_C8 [0, 2] [[(1 : ℚ) / 2, 1 / 2]] 1 3 (by simp)⟩

/-- Claim C10: the small-session reallocation step only moves rows into the
test set. For every row of the input table (whose `is_test` flags are the
csv's binary 0/1), if the row's filename-derived session has fewer than 15
rows among the input's non-test rows then the output row's `is_test` flag is
1, and otherwise the output row is unchanged in every column; in every case
`is_test` never decreases and the other columns are untouched. -/
theorem small_session_reassignment_C10 (df : List CsvRow) (i : ℕ) (r r' : CsvRow)
    (hbin : ∀ q ∈ df, q.is_test = 0 ∨ q.is_test = 1)
    (hr : df.get? i = some r)
    (hr' : (reassignSmallSessions df).get? i = some r') :
    (nonTestSessionCount df (get_session r.filename) < 15 → r'.is_test = 1) ∧
    (15 ≤ nonTestSessionCount df (get_session r.filename) → r' = r) ∧
    r.is_test ≤ r'.is_test ∧ r'.filename = r.filename ∧ r'.label = r.label := by
  have hmem : r ∈ df := List.get?_mem hr
  rw [reassignSmallSessions, List.get?_map, hr, Option.map_some'] at hr'
  have hfr := Option.some_inj.mp hr'
  by_cases hs : inSmallSessionIndex df (get_session r.filename) = true
  · rw [if_pos hs] at hfr
    subst hfr
    simp only [inSmallSessionIndex, decide_eq_true_eq] at hs
    refine ⟨fun _ => rfl, fun h15 => absurd hs (by omega), ?_, rfl, rfl⟩
    rcases hbin r hmem with h0 | h1
    · show r.is_test ≤ 1
      omega
    · show r.is_test ≤ 1
      omega
  · rw [if_neg hs] at hfr
    subst hfr
    simp only [inSmallSessionIndex, decide_eq_true_eq, not_and, not_lt] at hs
    refine ⟨fun hlt => ?_, fun _ => rfl, le_refl _, rfl, rfl⟩
    rcases hbin r hmem with h0 | h1
    · exfalso
      have hpos := mem_pos_nonTestSessionCount hmem h0
      have := hs hpos
      omega
    · exact h1

theorem small_session_reassignment_C10_witness :
    (∀ q ∈ [sampleCsvRow], q.is_test = 0 ∨ q.is_test = 1) ∧
    [sampleCsvRow].get? 0 = some sampleCsvRow ∧
    (reassignSmallSessions [sampleCsvRow]).get? 0
      = some { sampleCsvRow with is_test := 1 } ∧
    ((nonTestSessionCount [sampleCsvRow] (get_session sampleCsvRow.filename) < 15 →
        ({ sampleCsvRow with is_test := 1 } : CsvRow).is_test = 1) ∧
     (15 ≤ nonTestSessionCount [sampleCsvRow] (get_session sampleCsvRow.filename) →
        ({ sampleCsvRow with is_test := 1 } : CsvRow) = sampleCsvRow) ∧
     sampleCsvRow.is_test ≤ ({ sampleCsvRow with is_test := 1 } : CsvRow).is_test ∧
     ({ sampleCsvRow with is_test := 1 } : CsvRow).filename = sampleCsvRow.filename ∧
     ({ sampleCsvRow with is_test := 1 } : CsvRow).label = sampleCsvRow.label) :=
  ⟨by decide, rfl, by decide,
   small_session_reassignment_C10 [sampleCsvRow] 0 sampleCsvRow
     { sampleCsvRow with is_test := 1 } (by decide) rfl (by decide)⟩

end VocalCue
